import Mathlib

/-!
Shallow embedding of the Budget App client (src/App.tsx).

Monetary amounts are modeled as exact rationals.  React component state is
modeled by explicit records, and the effects and handlers of the component
become pure functions from state to state.  Nondeterministic inputs of the
source (generated item ids from Date.now/Math.random, JS Number parsing,
JSON.parse / JSON.stringify, the backend responses) are taken as parameters
of the embedded functions.
-/

/-- The period union type `'monthly' | 'weekly' | 'yearly'`. -/
inductive Period
  | monthly
  | weekly
  | yearly
  deriving DecidableEq

/-- The locale union type `'en' | 'es'`. -/
inductive AppLocale
  | en
  | es
  deriving DecidableEq

/-- The entries of the `translations` table that the embedded functions
consult (the full table in the source additionally holds UI label strings
that no embedded function reads; a missing key yields `none`, matching the
`??` chain in `t`). -/
def translationLookup : AppLocale → String → Option String
  | AppLocale.en, "defaultPaycheck" => some "Paycheck"
  | AppLocale.en, "defaultSideGig" => some "Side gig"
  | AppLocale.en, "defaultRent" => some "Rent"
  | AppLocale.en, "defaultUtilities" => some "Utilities"
  | AppLocale.es, "defaultPaycheck" => some "Sueldo"
  | AppLocale.es, "defaultSideGig" => some "Trabajo extra"
  | AppLocale.es, "defaultRent" => some "Renta"
  | AppLocale.es, "defaultUtilities" => some "Servicios"
  | _, _ => none

/-- `t`: `translations[locale][key] ?? translations.en[key] ?? key`. -/
def t (l : AppLocale) (key : String) : String :=
  (translationLookup l key).getD ((translationLookup AppLocale.en key).getD key)

/-- One element of the `currencies` array. -/
structure Currency where
  code : String
  name : String
  symbol : String
  rate : ℚ
  deriving DecidableEq

/-- `{ code: 'USD', name: 'US Dollar', symbol: '$', rate: 1 }` -/
def usdCurrency : Currency := ⟨"USD", "US Dollar", "$", 1⟩

/-- `{ code: 'GTQ', name: 'Guatemalan Quetzal', symbol: 'Q', rate: 7.8 }` -/
def gtqCurrency : Currency := ⟨"GTQ", "Guatemalan Quetzal", "Q", 7.8⟩

/-- The `currencies` array. -/
def currencies : List Currency := [usdCurrency, gtqCurrency]

/-- `currencies.find((c) => c.code === currencyCode) ?? currencies[0]`. -/
def selectedCurrency (currencyCode : String) : Currency :=
  (currencies.find? (fun c => c.code == currencyCode)).getD usdCurrency

/-- `period === 'monthly' ? 1 : period === 'weekly' ? 1 / 4 : 12`. -/
def periodFactor : Period → ℚ
  | Period.monthly => 1
  | Period.weekly => 1 / 4
  | Period.yearly => 12

/-- `convert = (value) => value * selectedCurrency.rate * periodFactor`. -/
def convert (cur : Currency) (p : Period) (value : ℚ) : ℚ :=
  value * cur.rate * periodFactor p

/-- `toBaseMonthly = (displayValue) =>
      displayValue / (selectedCurrency.rate * periodFactor)`. -/
def toBaseMonthly (cur : Currency) (p : Period) (displayValue : ℚ) : ℚ :=
  displayValue / (cur.rate * periodFactor p)

/-- `toDisplayAmount = (baseMonthlyValue) =>
      baseMonthlyValue * selectedCurrency.rate * periodFactor`. -/
def toDisplayAmount (cur : Currency) (p : Period) (baseMonthlyValue : ℚ) : ℚ :=
  baseMonthlyValue * cur.rate * periodFactor p

/-- The `IncomeItem` record type (also used for fixed and variable
expenses). -/
structure IncomeItem where
  id : String
  name : String
  amountBaseUsd : ℚ
  amountInput : String
  deriving DecidableEq

/-- The `BonusEntry` record type. -/
structure BonusEntry where
  amountBaseUsd : ℚ
  amountInput : String
  deriving DecidableEq

/-- `Partial<IncomeItem>`: an item as it may arrive from a stored
document, every field possibly absent. -/
structure StoredIncomeItem where
  id : Option String
  name : Option String
  amountBaseUsd : Option ℚ
  amountInput : Option String
  deriving DecidableEq

/-- `Partial<BonusEntry>`. -/
structure StoredBonusEntry where
  amountBaseUsd : Option ℚ
  amountInput : Option String
  deriving DecidableEq

/-- JS template-string rendering of a number, as in
`` `${item.amountBaseUsd ?? 0}` ``; it is only used to fill a default
`amountInput`, which no claim inspects, so the exact digit format is
rendered with `toString` on `ℚ`. -/
def numStr (q : ℚ) : String := toString q

/-- `normalizeItem`; the generated fallback id
`` `item-${Date.now()}-...` `` is nondeterministic and is passed in as
`freshId`. -/
def normalizeItem (freshId : String) (item : StoredIncomeItem) : IncomeItem :=
  { id := item.id.getD freshId
    name := item.name.getD "New item"
    amountBaseUsd := item.amountBaseUsd.getD 0
    amountInput := item.amountInput.getD (numStr (item.amountBaseUsd.getD 0)) }

/-- `normalizeBonus = (entry?: Partial<BonusEntry>)`. -/
def normalizeBonus (entry : Option StoredBonusEntry) : BonusEntry :=
  { amountBaseUsd := (entry.bind (fun e => e.amountBaseUsd)).getD 0
    amountInput :=
      (entry.bind (fun e => e.amountInput)).getD
        (numStr ((entry.bind (fun e => e.amountBaseUsd)).getD 0)) }

/-- `normalizeBonuses`: `Object.entries(value ?? {})` mapped through
`normalizeBonus`.  JS records are modeled as association lists in key
order. -/
def normalizeBonuses (value : Option (List (String × StoredBonusEntry))) :
    List (String × BonusEntry) :=
  (value.getD []).map (fun kv => (kv.1, normalizeBonus (some kv.2)))

/-- `normalizeMonthlyExpenses`. -/
def normalizeMonthlyExpenses (freshId : String)
    (value : Option (List (String × List StoredIncomeItem))) :
    List (String × List IncomeItem) :=
  (value.getD []).map (fun kv => (kv.1, kv.2.map (normalizeItem freshId)))

/-- The persisted `StoredState` shape: every field optional. -/
structure StoredState where
  incomes : Option (List StoredIncomeItem)
  fixedExpenses : Option (List StoredIncomeItem)
  monthlyBonuses : Option (List (String × StoredBonusEntry))
  variableExpensesByMonth : Option (List (String × List StoredIncomeItem))
  currencyCode : Option String
  period : Option Period
  activeTab : Option String
  activeMonth : Option String
  showIncomePanel : Option Bool
  showFixedExpensesPanel : Option Bool
  locale : Option AppLocale
  deriving DecidableEq

/-- The live component state (the `useState` cells that participate in the
persisted document). -/
structure AppState where
  incomes : List IncomeItem
  fixedExpenses : List IncomeItem
  monthlyBonuses : List (String × BonusEntry)
  variableExpensesByMonth : List (String × List IncomeItem)
  currencyCode : String
  period : Period
  activeTab : String
  activeMonth : String
  showIncomePanel : Bool
  showFixedExpensesPanel : Bool
  locale : AppLocale
  deriving DecidableEq

/-- `buildDefaultIncomes(translate)`. -/
def buildDefaultIncomes (translate : String → String) : List IncomeItem :=
  [ ⟨"income-1", translate "defaultPaycheck", 0, "0"⟩,
    ⟨"income-2", translate "defaultSideGig", 0, "0"⟩ ]

/-- `buildDefaultFixedExpenses(translate)`. -/
def buildDefaultFixedExpenses (translate : String → String) : List IncomeItem :=
  [ ⟨"expense-1", translate "defaultRent", 0, "0"⟩,
    ⟨"expense-2", translate "defaultUtilities", 0, "0"⟩ ]

/-- Embedding of a live item into the persisted shape (JSON keeps every
field present). -/
def storedOfItem (i : IncomeItem) : StoredIncomeItem :=
  ⟨some i.id, some i.name, some i.amountBaseUsd, some i.amountInput⟩

/-- Embedding of a live bonus entry into the persisted shape. -/
def storedOfBonus (b : BonusEntry) : StoredBonusEntry :=
  ⟨some b.amountBaseUsd, some b.amountInput⟩

/-- `buildStoredState`: the object literal collecting the eleven state
cells. -/
def buildStoredState (s : AppState) : StoredState :=
  { incomes := some (s.incomes.map storedOfItem)
    fixedExpenses := some (s.fixedExpenses.map storedOfItem)
    monthlyBonuses := some (s.monthlyBonuses.map (fun kv => (kv.1, storedOfBonus kv.2)))
    variableExpensesByMonth :=
      some (s.variableExpensesByMonth.map (fun kv => (kv.1, kv.2.map storedOfItem)))
    currencyCode := some s.currencyCode
    period := some s.period
    activeTab := some s.activeTab
    activeMonth := some s.activeMonth
    showIncomePanel := some s.showIncomePanel
    showFixedExpensesPanel := some s.showFixedExpensesPanel
    locale := some s.locale }

/-- `STORAGE_KEY = 'budget-app-state-v1'`. -/
def storageKey : String := "budget-app-state-v1"

/-- `loadStoredState`: `localStorage.getItem` is the `raw` argument; the
`if (!raw)` guard treats both a missing key and an empty string as absent
(JS falsiness); `JSON.parse` inside try/catch is the `parse` argument
returning `none` on invalid JSON. -/
def loadStoredState (raw : Option String)
    (parse : String → Option StoredState) : Option StoredState :=
  match raw with
  | none => none
  | some r => if r = "" then none else parse r

/-- The initial values of the eleven state cells (lines 306-385): each one
is `storedState?.field ?? default`, with the default income and expense
lists built from the stored (or default) locale. -/
def initAppState (stored : Option StoredState) (freshId : String) : AppState :=
  let loc := (stored.bind (fun st => st.locale)).getD AppLocale.en
  { incomes :=
      ((stored.bind (fun st => st.incomes)).map
        (fun l => l.map (normalizeItem freshId))).getD
        (buildDefaultIncomes (t loc))
    fixedExpenses :=
      ((stored.bind (fun st => st.fixedExpenses)).map
        (fun l => l.map (normalizeItem freshId))).getD
        (buildDefaultFixedExpenses (t loc))
    monthlyBonuses := normalizeBonuses (stored.bind (fun st => st.monthlyBonuses))
    variableExpensesByMonth :=
      normalizeMonthlyExpenses freshId (stored.bind (fun st => st.variableExpensesByMonth))
    currencyCode := (stored.bind (fun st => st.currencyCode)).getD "USD"
    period := (stored.bind (fun st => st.period)).getD Period.monthly
    activeTab := (stored.bind (fun st => st.activeTab)).getD "Dashboard"
    activeMonth := (stored.bind (fun st => st.activeMonth)).getD "Jan"
    showIncomePanel := (stored.bind (fun st => st.showIncomePanel)).getD false
    showFixedExpensesPanel :=
      (stored.bind (fun st => st.showFixedExpensesPanel)).getD false
    locale := loc }

/-- The JS truthiness guard `if (state.field) set(state.field)` on a free
string field: `some ""` is falsy and is not applied. -/
def applyTruthyString (current : String) (v : Option String) : String :=
  match v with
  | some x => if x = "" then current else x
  | none => current

/-- `applyStoredState` (lines 493-533): each present (truthy) field of the
document replaces the corresponding state cell; absent fields leave the
cell unchanged. -/
def applyStoredState (freshId : String) (state : StoredState) (s : AppState) :
    AppState :=
  { incomes :=
      match state.incomes with
      | some l => l.map (normalizeItem freshId)
      | none => s.incomes
    fixedExpenses :=
      match state.fixedExpenses with
      | some l => l.map (normalizeItem freshId)
      | none => s.fixedExpenses
    monthlyBonuses :=
      match state.monthlyBonuses with
      | some m => normalizeBonuses (some m)
      | none => s.monthlyBonuses
    variableExpensesByMonth :=
      match state.variableExpensesByMonth with
      | some m => normalizeMonthlyExpenses freshId (some m)
      | none => s.variableExpensesByMonth
    currencyCode := applyTruthyString s.currencyCode state.currencyCode
    period := state.period.getD s.period
    activeTab := applyTruthyString s.activeTab state.activeTab
    activeMonth := applyTruthyString s.activeMonth state.activeMonth
    showIncomePanel := state.showIncomePanel.getD s.showIncomePanel
    showFixedExpensesPanel :=
      state.showFixedExpensesPanel.getD s.showFixedExpensesPanel
    locale := state.locale.getD s.locale }

/-- `resetToDefaults` (lines 482-491): replaces the four budget
collections with fresh defaults for the current locale and removes the
localStorage entry (the single cell `storage`).  It also sets
`skipNextSyncRef`, which only suppresses the next debounced push and is
not part of the persisted state. -/
def resetToDefaults (s : AppState) (_storage : Option String) :
    AppState × Option String :=
  ({ s with
      incomes := buildDefaultIncomes (t s.locale)
      fixedExpenses := buildDefaultFixedExpenses (t s.locale)
      monthlyBonuses := []
      variableExpensesByMonth := [] },
    none)

/-- The sign-out watcher effect (lines 572-578): sessions are modeled by
`Option` of the user id; on a transition from a signed-in session to no
session it calls `resetToDefaults`. -/
def signOutWatcher (prevSession session : Option String) (s : AppState)
    (storage : Option String) : AppState × Option String :=
  if prevSession.isSome && session.isNone then resetToDefaults s storage
  else (s, storage)

/-- The `syncStatus` union `'idle' | 'loading' | 'saving' | 'error'`. -/
inductive SyncStatus
  | idle
  | loading
  | saving
  | error
  deriving DecidableEq

/-- The three sync-related state cells. -/
structure SyncView where
  syncStatus : SyncStatus
  syncError : Option String
  syncReady : Bool
  deriving DecidableEq

/-- `loadRemoteState` (lines 595-619): the select result is either an
error message, no row / no state document, or a state document.  On error
the budget state is untouched and the status becomes error; otherwise any
document is applied and the status returns to idle; in all three cases
`syncReady` becomes true. -/
def loadRemoteState (freshId : String)
    (result : Except String (Option StoredState)) (s : AppState) :
    AppState × SyncView :=
  match result with
  | Except.error msg => (s, ⟨SyncStatus.error, some msg, true⟩)
  | Except.ok none => (s, ⟨SyncStatus.idle, none, true⟩)
  | Except.ok (some st) =>
      (applyStoredState freshId st s, ⟨SyncStatus.idle, none, true⟩)

/-- The localStorage persist effect (lines 674-682): writes the serialized
current state under `storageKey`; `JSON.stringify` is the `serialize`
argument. -/
def persistEffect (serialize : StoredState → String) (s : AppState)
    (store : String → Option String) : String → Option String :=
  fun k => if k = storageKey then some (serialize (buildStoredState s)) else store k

/-- Character class of `value.replace(/[^0-9.]/g, '')`: decimal digits and
the dot survive. -/
def isAmountChar (c : Char) : Bool := c.isDigit || c == '.'

/-- JS `String.prototype.split('.')` at the character-list level: splits at
every dot; the empty string splits to one empty part. -/
def splitDot : List Char → List (List Char)
  | [] => [[]]
  | c :: rest =>
      if c = '.' then [] :: splitDot rest
      else
        match splitDot rest with
        | [] => [[c]]
        | p :: ps => (c :: p) :: ps

/-- Joins parts back with a dot between consecutive parts (the inverse of
`splitDot`, used only in proofs). -/
def joinDot : List (List Char) → List Char
  | [] => []
  | [p] => p
  | p :: q :: ps => p ++ '.' :: joinDot (q :: ps)

/-- `sanitizeAmountInput` (lines 723-729) on character lists: strip every
character other than digits and dots, then
`parts.length <= 1 ? normalized : parts[0] + '.' + parts.slice(1).join('')`. -/
def sanitizeChars (l : List Char) : List Char :=
  match splitDot (l.filter isAmountChar) with
  | [] => l.filter isAmountChar
  | [_] => l.filter isAmountChar
  | p :: rest => p ++ '.' :: rest.flatten

/-- `sanitizeAmountInput` on strings. -/
def sanitizeAmountInput (value : String) : String :=
  String.mk (sanitizeChars value.data)

/-- `sanitized === '' ? 0 : Number(sanitized)`: the numeric interpretation
of the sanitized field, with JS `Number` supplied as `parseNum` (the
claims about the normalization formula hold for every numeric
interpretation of the entered text). -/
def amountValue (parseNum : String → ℚ) (sanitized : String) : ℚ :=
  if sanitized = "" then 0 else parseNum sanitized

/-- Whether a JS record (association list in key order) has a key. -/
def recordHasKey {α : Type} (l : List (String × α)) (k : String) : Bool :=
  l.any (fun e => e.1 == k)

/-- The JS spread update `{ ...prev, [k]: v }`: overwrites the value at an
existing key in place, otherwise appends the key. -/
def recordSet {α : Type} (l : List (String × α)) (k : String) (v : α) :
    List (String × α) :=
  if recordHasKey l k then l.map (fun e => if e.1 == k then (k, v) else e)
  else l ++ [(k, v)]

/-- JS record lookup `prev[k]` as an `Option`. -/
def recordGet {α : Type} (l : List (String × α)) (k : String) : Option α :=
  (l.find? (fun e => e.1 == k)).map (fun e => e.2)

/-- `handleIncomeAmountChange` (lines 739-753): sanitize the typed text,
interpret it numerically, and store the base-monthly normalization on the
matching item. -/
def handleIncomeAmountChange (cur : Currency) (p : Period)
    (parseNum : String → ℚ) (id value : String) (items : List IncomeItem) :
    List IncomeItem :=
  let sanitized := sanitizeAmountInput value
  let nextValue := amountValue parseNum sanitized
  items.map (fun it =>
    if it.id == id then
      { it with amountBaseUsd := toBaseMonthly cur p nextValue
                amountInput := sanitized }
    else it)

/-- `handleFixedExpenseAmountChange` (lines 776-790). -/
def handleFixedExpenseAmountChange (cur : Currency) (p : Period)
    (parseNum : String → ℚ) (id value : String) (items : List IncomeItem) :
    List IncomeItem :=
  let sanitized := sanitizeAmountInput value
  let nextValue := amountValue parseNum sanitized
  items.map (fun it =>
    if it.id == id then
      { it with amountBaseUsd := toBaseMonthly cur p nextValue
                amountInput := sanitized }
    else it)

/-- `handleBonusAmountChange` (lines 841-851). -/
def handleBonusAmountChange (cur : Currency) (p : Period)
    (parseNum : String → ℚ) (month value : String)
    (bonuses : List (String × BonusEntry)) : List (String × BonusEntry) :=
  let sanitized := sanitizeAmountInput value
  let nextValue := amountValue parseNum sanitized
  recordSet bonuses month ⟨toBaseMonthly cur p nextValue, sanitized⟩

/-- `handleVariableExpenseAmountChange` (lines 902-921). -/
def handleVariableExpenseAmountChange (cur : Currency) (p : Period)
    (parseNum : String → ℚ) (month id value : String)
    (byMonth : List (String × List IncomeItem)) :
    List (String × List IncomeItem) :=
  let sanitized := sanitizeAmountInput value
  let nextValue := amountValue parseNum sanitized
  recordSet byMonth month
    (((recordGet byMonth month).getD []).map (fun it =>
      if it.id == id then
        { it with amountBaseUsd := toBaseMonthly cur p nextValue
                  amountInput := sanitized }
      else it))

/-- The debounced sync effect (lines 684-721) over a timed trace of local
state changes (times in milliseconds, strictly increasing).  Each change
clears any pending timeout and schedules an upsert of the then-current
state 800 ms later; the scheduled upsert fires only if the next change
does not arrive before the timer elapses.  The result is the list of
upserts that actually fire, each with its fire time and payload. -/
def firedPushes {α : Type} : List (ℚ × α) → List (ℚ × α)
  | [] => []
  | [c] => [(c.1 + 800, c.2)]
  | c :: cn :: rest =>
      if c.1 + 800 ≤ cn.1 then (c.1 + 800, c.2) :: firedPushes (cn :: rest)
      else firedPushes (cn :: rest)

/-- The body of the scheduled timeout (lines 697-714): a single `upsert`
is awaited; on error the sync status becomes error with the message and
the callback returns; on success the status returns to idle.
`firstResult` is the outcome of that single attempt (`some msg` = error);
`retryResults` are outcomes a retrying implementation would consume — the
source never issues a second attempt, so they are unused.  The first
component counts the upsert attempts actually made. -/
def runScheduledUpsert (firstResult : Option String)
    (retryResults : List (Option String)) : ℕ × SyncStatus × Option String :=
  let _ := retryResults
  match firstResult with
  | some msg => (1, SyncStatus.error, some msg)
  | none => (1, SyncStatus.idle, none)

/-- `incomeTotalBaseUsd` (lines 413-416). -/
def incomeTotalBaseUsd (s : AppState) : ℚ :=
  s.incomes.foldl (fun total it => total + it.amountBaseUsd) 0

/-- `fixedExpensesTotalBaseUsd` (lines 417-420). -/
def fixedExpensesTotalBaseUsd (s : AppState) : ℚ :=
  s.fixedExpenses.foldl (fun total it => total + it.amountBaseUsd) 0

/-- `bonusSumBaseUsd` (lines 422-425): sums `normalizeBonus(entry)` over
all record values. -/
def bonusSumBaseUsd (s : AppState) : ℚ :=
  s.monthlyBonuses.foldl
    (fun total kv => total + (normalizeBonus (some (storedOfBonus kv.2))).amountBaseUsd) 0

/-- `activeVariableExpenses = variableExpensesByMonth[activeMonth] ?? []`. -/
def activeVariableExpenses (s : AppState) : List IncomeItem :=
  (recordGet s.variableExpensesByMonth s.activeMonth).getD []

/-- `variableExpensesTotalBaseUsd` (lines 427-430): the active month only. -/
def variableExpensesTotalBaseUsd (s : AppState) : ℚ :=
  (activeVariableExpenses s).foldl (fun total it => total + it.amountBaseUsd) 0

/-- `variableExpensesSumBaseUsd` (lines 431-438): all months. -/
def variableExpensesSumBaseUsd (s : AppState) : ℚ :=
  s.variableExpensesByMonth.foldl
    (fun total kv => total + kv.2.foldl (fun sum it => sum + it.amountBaseUsd) 0) 0

/-- The numeric value rendered by `dashboardIncomeDisplay`
(lines 980-986); `formatCurrency` only formats it. -/
def dashboardIncomeValue (s : AppState) : ℚ :=
  if s.period = Period.yearly then
    incomeTotalBaseUsd s * (selectedCurrency s.currencyCode).rate * 12 +
      bonusSumBaseUsd s * (selectedCurrency s.currencyCode).rate
  else toDisplayAmount (selectedCurrency s.currencyCode) s.period (incomeTotalBaseUsd s)

/-- The numeric value rendered by `dashboardExpensesDisplay`
(lines 990-1000). -/
def dashboardExpensesValue (s : AppState) : ℚ :=
  if s.period = Period.yearly then
    (fixedExpensesTotalBaseUsd s * 12 + variableExpensesSumBaseUsd s) *
      (selectedCurrency s.currencyCode).rate
  else
    toDisplayAmount (selectedCurrency s.currencyCode) s.period
      (fixedExpensesTotalBaseUsd s + variableExpensesTotalBaseUsd s)

/-- The numeric value rendered by `dashboardRemainingDisplay`
(lines 1004-1019). -/
def dashboardRemainingValue (s : AppState) : ℚ :=
  if s.period = Period.yearly then
    (incomeTotalBaseUsd s * 12 + bonusSumBaseUsd s -
        fixedExpensesTotalBaseUsd s * 12 - variableExpensesSumBaseUsd s) *
      (selectedCurrency s.currencyCode).rate
  else
    toDisplayAmount (selectedCurrency s.currencyCode) s.period
      (incomeTotalBaseUsd s - fixedExpensesTotalBaseUsd s -
        variableExpensesTotalBaseUsd s)

/-- Concrete state used by witnesses: the fresh-start state. -/
def witnessStateA : AppState := initAppState none "witness-id"

/-- Concrete state used by witnesses and counterexamples: the fresh-start
state after the user switches the display currency to GTQ. -/
def witnessStateB : AppState := { witnessStateA with currencyCode := "GTQ" }

lemma selectedCurrency_eq (code : String) :
    selectedCurrency code = usdCurrency ∨ selectedCurrency code = gtqCurrency := by
  unfold selectedCurrency currencies
  cases h1 : (usdCurrency.code == code) with
  | true => simp [List.find?, h1]
  | false =>
    cases h2 : (gtqCurrency.code == code) with
    | true => simp [List.find?, h1, h2]
    | false => simp [List.find?, h1, h2]

lemma selectedCurrency_rate_ne_zero (code : String) :
    (selectedCurrency code).rate ≠ 0 := by
  rcases selectedCurrency_eq code with h | h <;> rw [h]
  · norm_num [usdCurrency]
  · norm_num [gtqCurrency]

lemma periodFactor_ne_zero (p : Period) : periodFactor p ≠ 0 := by
  cases p <;> norm_num [periodFactor]

lemma toDisplay_toBase (code : String) (p : Period) (x : ℚ) :
    toDisplayAmount (selectedCurrency code) p
      (toBaseMonthly (selectedCurrency code) p x) = x := by
  have hr := selectedCurrency_rate_ne_zero code
  have hf := periodFactor_ne_zero p
  unfold toDisplayAmount toBaseMonthly
  field_simp
  ring

lemma recordSet_mem_key {α : Type} (l : List (String × α)) (k : String) (v : α)
    (kv : String × α) (hm : kv ∈ recordSet l k v) (hk : kv.1 = k) : kv.2 = v := by
  unfold recordSet at hm
  split at hm
  · obtain ⟨e, he, heq⟩ := List.mem_map.mp hm
    by_cases h : (e.1 == k) = true
    · rw [if_pos h] at heq
      rw [← heq]
    · rw [if_neg h] at heq
      subst heq
      exact absurd (beq_iff_eq.mpr hk) h
  · rename_i hno
    rcases List.mem_append.mp hm with h | h
    · exfalso
      apply hno
      unfold recordHasKey
      exact List.any_eq_true.mpr ⟨kv, h, beq_iff_eq.mpr hk⟩
    · simp only [List.mem_singleton] at h
      subst h
      rfl

/-- C1: every mutation of a monetary amount (income, fixed expense, bonus,
variable expense) stores the entered value normalized through the single
formula `toBaseMonthly` (display / (rate * periodFactor)), and the display
value re-derived by `toDisplayAmount` (base * rate * periodFactor) gives
back exactly the entered value under exact rational arithmetic: the
round-trip `toDisplayAmount (toBaseMonthly x) = x` holds for every display
value and every selectable currency and period, and each of the four
amount-change handlers stores a base amount whose re-derived display value
is the numeric interpretation of the sanitized input. -/
theorem amount_normalization_round_trip (code : String) (p : Period)
    (parseNum : String → ℚ) (id month value : String)
    (items : List IncomeItem) (bonuses : List (String × BonusEntry))
    (byMonth : List (String × List IncomeItem)) :
    (∀ x : ℚ, toDisplayAmount (selectedCurrency code) p
        (toBaseMonthly (selectedCurrency code) p x) = x) ∧
    (∀ it ∈ handleIncomeAmountChange (selectedCurrency code) p parseNum id value items,
        it.id = id →
        toDisplayAmount (selectedCurrency code) p it.amountBaseUsd =
          amountValue parseNum (sanitizeAmountInput value)) ∧
    (∀ it ∈ handleFixedExpenseAmountChange (selectedCurrency code) p parseNum id value items,
        it.id = id →
        toDisplayAmount (selectedCurrency code) p it.amountBaseUsd =
          amountValue parseNum (sanitizeAmountInput value)) ∧
    (∀ kv ∈ handleBonusAmountChange (selectedCurrency code) p parseNum month value bonuses,
        kv.1 = month →
        toDisplayAmount (selectedCurrency code) p kv.2.amountBaseUsd =
          amountValue parseNum (sanitizeAmountInput value)) ∧
    (∀ kv ∈ handleVariableExpenseAmountChange (selectedCurrency code) p parseNum
        month id value byMonth,
        kv.1 = month → ∀ it ∈ kv.2, it.id = id →
        toDisplayAmount (selectedCurrency code) p it.amountBaseUsd =
          amountValue parseNum (sanitizeAmountInput value)) := by
  refine ⟨toDisplay_toBase code p, ?_, ?_, ?_, ?_⟩
  · intro it hit hid
    simp only [handleIncomeAmountChange, List.mem_map] at hit
    obtain ⟨a, ha, heq⟩ := hit
    by_cases h : (a.id == id) = true
    · rw [if_pos h] at heq
      rw [← heq]
      exact toDisplay_toBase code p _
    · rw [if_neg h] at heq
      subst heq
      exact absurd (beq_iff_eq.mpr hid) h
  · intro it hit hid
    simp only [handleFixedExpenseAmountChange, List.mem_map] at hit
    obtain ⟨a, ha, heq⟩ := hit
    by_cases h : (a.id == id) = true
    · rw [if_pos h] at heq
      rw [← heq]
      exact toDisplay_toBase code p _
    · rw [if_neg h] at heq
      subst heq
      exact absurd (beq_iff_eq.mpr hid) h
  · intro kv hkv hk
    have := recordSet_mem_key bonuses month _ kv hkv hk
    rw [this]
    exact toDisplay_toBase code p _
  · intro kv hkv hk it hit hid
    have hval := recordSet_mem_key byMonth month _ kv hkv hk
    rw [hval] at hit
    simp only [List.mem_map] at hit
    obtain ⟨a, ha, heq⟩ := hit
    by_cases h : (a.id == id) = true
    · rw [if_pos h] at heq
      rw [← heq]
      exact toDisplay_toBase code p _
    · rw [if_neg h] at heq
      subst heq
      exact absurd (beq_iff_eq.mpr hid) h

/-- Witness for C1 at a concrete input: entering the display text "5" on
item "a" with currency USD in the weekly view stores base 20, and the
re-derived display value is exactly 5. -/
theorem amount_normalization_round_trip_witness :
    (⟨"a", "n", 20, "5"⟩ : IncomeItem) ∈
      handleIncomeAmountChange (selectedCurrency "USD") Period.weekly
        (fun _ => (5 : ℚ)) "a" "5" [⟨"a", "n", 0, "0"⟩] ∧
    toDisplayAmount (selectedCurrency "USD") Period.weekly (20 : ℚ) =
      amountValue (fun _ => (5 : ℚ)) (sanitizeAmountInput "5") := by
  have hs : sanitizeAmountInput "5" = "5" := by decide
  have hb : toBaseMonthly (selectedCurrency "USD") Period.weekly 5 = 20 := by
    norm_num [toBaseMonthly, selectedCurrency, currencies, usdCurrency, gtqCurrency,
      periodFactor, List.find?]
  have hmem : (⟨"a", "n", 20, "5"⟩ : IncomeItem) ∈
      handleIncomeAmountChange (selectedCurrency "USD") Period.weekly
        (fun _ => (5 : ℚ)) "a" "5" [⟨"a", "n", 0, "0"⟩] := by
    simp only [handleIncomeAmountChange, hs, amountValue, List.map_cons, List.map_nil]
    rw [if_neg (by decide : ¬("5" = ""))]
    norm_num [hb]
  exact ⟨hmem,
    (amount_normalization_round_trip "USD" Period.weekly (fun _ => (5 : ℚ))
      "a" "Jan" "5" [⟨"a", "n", 0, "0"⟩] [] []).2.1 ⟨"a", "n", 20, "5"⟩ hmem rfl⟩

/-- C2: the displayed value of a base-monthly amount is
base * currencyRate * periodFactor, with rate 1 for USD and 7.8 for GTQ,
and period factor 1 for monthly, 1/4 for weekly and 12 for yearly. -/
theorem convert_currency_period_spec :
    (∀ cur : Currency, ∀ p : Period, ∀ b : ℚ,
        toDisplayAmount cur p b = b * cur.rate * periodFactor p) ∧
    (∀ cur : Currency, ∀ p : Period, ∀ v : ℚ,
        convert cur p v = v * cur.rate * periodFactor p) ∧
    (selectedCurrency "USD").rate = 1 ∧
    (selectedCurrency "GTQ").rate = 7.8 ∧
    periodFactor Period.monthly = 1 ∧
    periodFactor Period.weekly = 1 / 4 ∧
    periodFactor Period.yearly = 12 := by
  refine ⟨fun _ _ _ => rfl, fun _ _ _ => rfl, by decide, ?_, rfl, rfl, rfl⟩
  simp [selectedCurrency, currencies, usdCurrency, gtqCurrency, List.find?]

lemma firedPushes_mem_sound {α : Type} (changes : List (ℚ × α))
    (hsorted : changes.Pairwise (fun a b => a.1 < b.1)) :
    ∀ p ∈ firedPushes changes,
      (∃ c ∈ changes, p = (c.1 + 800, c.2)) ∧
      ∀ c ∈ changes, c.1 < p.1 → c.1 + 800 ≤ p.1 := by
  induction changes with
  | nil => intro p hp; simp [firedPushes] at hp
  | cons c rest ih =>
    cases rest with
    | nil =>
      intro p hp
      simp only [firedPushes, List.mem_singleton] at hp
      subst hp
      refine ⟨⟨c, List.mem_singleton.mpr rfl, rfl⟩, ?_⟩
      intro d hd _
      rcases List.mem_singleton.mp hd with rfl
      exact le_refl _
    | cons cn rest2 =>
      have hps := List.pairwise_cons.mp hsorted
      have hhead : ∀ d ∈ cn :: rest2, cn.1 ≤ d.1 := by
        intro d hd
        rcases List.mem_cons.mp hd with rfl | h
        · exact le_refl _
        · exact le_of_lt ((List.pairwise_cons.mp hps.2).1 d h)
      have hclt : c.1 < cn.1 := hps.1 cn (List.mem_cons_self _ _)
      intro p hp
      by_cases hle : c.1 + 800 ≤ cn.1
      · rw [show firedPushes (c :: cn :: rest2) =
            (if c.1 + 800 ≤ cn.1 then
              (c.1 + 800, c.2) :: firedPushes (cn :: rest2)
            else firedPushes (cn :: rest2)) from rfl, if_pos hle] at hp
        rcases List.mem_cons.mp hp with rfl | hp2
        · refine ⟨⟨c, List.mem_cons_self _ _, rfl⟩, ?_⟩
          intro d hd hlt
          rcases List.mem_cons.mp hd with rfl | h
          · exact le_refl _
          · exact absurd hlt (not_lt.mpr (le_trans hle (hhead d h)))
        · obtain ⟨⟨d, hd, rfl⟩, htime⟩ := ih hps.2 p hp2
          refine ⟨⟨d, List.mem_cons_of_mem _ hd, rfl⟩, ?_⟩
          intro e he hlt
          rcases List.mem_cons.mp he with rfl | h
          · have h1 : cn.1 ≤ d.1 := hhead d hd
            show e.1 + 800 ≤ d.1 + 800
            linarith
          · exact htime e h hlt
      · rw [show firedPushes (c :: cn :: rest2) =
            (if c.1 + 800 ≤ cn.1 then
              (c.1 + 800, c.2) :: firedPushes (cn :: rest2)
            else firedPushes (cn :: rest2)) from rfl, if_neg hle] at hp
        obtain ⟨⟨d, hd, rfl⟩, htime⟩ := ih hps.2 p hp
        refine ⟨⟨d, List.mem_cons_of_mem _ hd, rfl⟩, ?_⟩
        intro e he hlt
        rcases List.mem_cons.mp he with rfl | h
        · have h1 : cn.1 ≤ d.1 := hhead d hd
          show e.1 + 800 ≤ d.1 + 800
          linarith
        · exact htime e h hlt

lemma firedPushes_burst {α : Type} (changes : List (ℚ × α)) (h : changes ≠ [])
    (hburst : changes.Chain' (fun a b => b.1 < a.1 + 800)) :
    firedPushes changes =
      [((changes.getLast h).1 + 800, (changes.getLast h).2)] := by
  induction changes with
  | nil => exact absurd rfl h
  | cons c rest ih =>
    cases rest with
    | nil => simp [firedPushes]
    | cons cn rest2 =>
      have hc : cn.1 < c.1 + 800 := (List.chain'_cons.mp hburst).1
      have ht := (List.chain'_cons.mp hburst).2
      have hnot : ¬ (c.1 + 800 ≤ cn.1) := not_le.mpr hc
      rw [show firedPushes (c :: cn :: rest2) =
          (if c.1 + 800 ≤ cn.1 then
            (c.1 + 800, c.2) :: firedPushes (cn :: rest2)
          else firedPushes (cn :: rest2)) from rfl, if_neg hnot]
      rw [ih (by simp) ht]
      simp [List.getLast_cons]

/-- C3: over any strictly increasing trace of local state changes while
signed in with sync ready, (a) every upsert that fires does so exactly
800 ms after some change, and no change strictly precedes that fire time
by less than 800 ms — so a push is never issued less than 800 ms after the
last change before it; and (b) a burst of edits whose consecutive gaps are
all under 800 ms produces exactly one upsert, fired 800 ms after the last
change of the burst and carrying the latest state. -/
theorem debounced_sync_spec (changes : List (ℚ × AppState))
    (hsorted : changes.Pairwise (fun a b => a.1 < b.1)) :
    (∀ p ∈ firedPushes changes,
        (∃ c ∈ changes, p = (c.1 + 800, c.2)) ∧
        ∀ c ∈ changes, c.1 < p.1 → c.1 + 800 ≤ p.1) ∧
    (∀ h : changes ≠ [],
        changes.Chain' (fun a b => b.1 < a.1 + 800) →
        firedPushes changes =
          [((changes.getLast h).1 + 800, (changes.getLast h).2)]) :=
  ⟨firedPushes_mem_sound changes hsorted,
    fun h hb => firedPushes_burst changes h hb⟩

/-- Witness for C3 at a concrete input: two edits 100 ms apart produce a
single upsert at 900 ms carrying the second state. -/
theorem debounced_sync_spec_witness :
    firedPushes [((0 : ℚ), witnessStateA), (100, witnessStateB)] =
      [(900, witnessStateB)] := by
  have h := (debounced_sync_spec [((0 : ℚ), witnessStateA), (100, witnessStateB)]
    (by norm_num)).2 (by simp) (by norm_num)
  rw [h]
  norm_num

/-- C4 counterexample: starting from a fresh state in which the user has
only switched the display currency to GTQ, signing out does not produce
the fresh-start state — `resetToDefaults` leaves `currencyCode` (and the
other preference fields) untouched, while a fresh start with no cached
data yields "USD". -/
theorem signOut_not_fresh_defaults_cex :
    (signOutWatcher (some "user-1") none witnessStateB (some "cached")).1 ≠
      initAppState none "witness-id" := by decide

/-- C4 (amended): on every transition from a signed-in session to no
session the four budget collections revert to their defaults (built from
the current locale) and the localStorage cache entry is removed, but the
preference fields (currency code, period, active tab, active month, panel
flags, locale) keep their pre-sign-out values instead of reverting to the
fresh-start defaults. -/
theorem signOut_resets_budget_collections (uid : String) (s : AppState)
    (storage : Option String) :
    (signOutWatcher (some uid) none s storage).1.incomes =
      buildDefaultIncomes (t s.locale) ∧
    (signOutWatcher (some uid) none s storage).1.fixedExpenses =
      buildDefaultFixedExpenses (t s.locale) ∧
    (signOutWatcher (some uid) none s storage).1.monthlyBonuses = [] ∧
    (signOutWatcher (some uid) none s storage).1.variableExpensesByMonth = [] ∧
    (signOutWatcher (some uid) none s storage).2 = none ∧
    (signOutWatcher (some uid) none s storage).1.currencyCode = s.currencyCode ∧
    (signOutWatcher (some uid) none s storage).1.period = s.period ∧
    (signOutWatcher (some uid) none s storage).1.activeTab = s.activeTab ∧
    (signOutWatcher (some uid) none s storage).1.activeMonth = s.activeMonth ∧
    (signOutWatcher (some uid) none s storage).1.showIncomePanel = s.showIncomePanel ∧
    (signOutWatcher (some uid) none s storage).1.showFixedExpensesPanel =
      s.showFixedExpensesPanel ∧
    (signOutWatcher (some uid) none s storage).1.locale = s.locale :=
  ⟨rfl, rfl, rfl, rfl, rfl, rfl, rfl, rfl, rfl, rfl, rfl, rfl⟩

/-- C5 counterexample: with a first upsert outcome that fails and a second
outcome available that would succeed, the debounced callback makes exactly
one attempt (not the two a retry-once mechanism would make) and surfaces
the error immediately. -/
theorem upsert_no_retry_cex :
    runScheduledUpsert (some "boom") [none] =
      (1, SyncStatus.error, some "boom") ∧
    (runScheduledUpsert (some "boom") [none]).1 ≠ 2 := by decide

/-- C5 (amended): the remote write is a debounced single attempt with no
retry: every run of the scheduled callback issues exactly one upsert; on
failure the sync status becomes error with the message surfaced
immediately, and on success it returns to idle. -/
theorem debounced_upsert_single_attempt (firstResult : Option String)
    (retryResults : List (Option String)) (msg : String) :
    (runScheduledUpsert firstResult retryResults).1 = 1 ∧
    runScheduledUpsert (some msg) retryResults =
      (1, SyncStatus.error, some msg) ∧
    runScheduledUpsert none retryResults = (1, SyncStatus.idle, none) := by
  refine ⟨?_, rfl, rfl⟩
  cases firstResult <;> rfl

/-- C6: on sign-in the remote row is fetched; an error outcome sets the
sync status to error with the message recorded and leaves the budget state
unchanged, while an existing state document is applied through
`applyStoredState` with sync becoming ready, and every top-level field
missing from the document leaves the corresponding state cell at its
current value. -/
theorem load_remote_state_spec (freshId msg : String) (st : StoredState)
    (s : AppState) :
    loadRemoteState freshId (Except.error msg) s =
      (s, ⟨SyncStatus.error, some msg, true⟩) ∧
    loadRemoteState freshId (Except.ok (some st)) s =
      (applyStoredState freshId st s, ⟨SyncStatus.idle, none, true⟩) ∧
    loadRemoteState freshId (Except.ok none) s =
      (s, ⟨SyncStatus.idle, none, true⟩) ∧
    (applyStoredState freshId { st with incomes := none } s).incomes =
      s.incomes ∧
    (applyStoredState freshId { st with fixedExpenses := none } s).fixedExpenses =
      s.fixedExpenses ∧
    (applyStoredState freshId { st with monthlyBonuses := none } s).monthlyBonuses =
      s.monthlyBonuses ∧
    (applyStoredState freshId
        { st with variableExpensesByMonth := none } s).variableExpensesByMonth =
      s.variableExpensesByMonth ∧
    (applyStoredState freshId { st with currencyCode := none } s).currencyCode =
      s.currencyCode ∧
    (applyStoredState freshId { st with period := none } s).period = s.period ∧
    (applyStoredState freshId { st with activeTab := none } s).activeTab =
      s.activeTab ∧
    (applyStoredState freshId { st with activeMonth := none } s).activeMonth =
      s.activeMonth ∧
    (applyStoredState freshId { st with showIncomePanel := none } s).showIncomePanel =
      s.showIncomePanel ∧
    (applyStoredState freshId
        { st with showFixedExpensesPanel := none } s).showFixedExpensesPanel =
      s.showFixedExpensesPanel ∧
    (applyStoredState freshId { st with locale := none } s).locale = s.locale :=
  ⟨rfl, rfl, rfl, rfl, rfl, rfl, rfl, rfl, rfl, rfl, rfl, rfl, rfl, rfl⟩

/-- C9: `resetToDefaults` modifies only the four budget collections and
clears the localStorage cache entry; every preference field is left
unchanged. -/
theorem resetToDefaults_frame_spec (s : AppState) (storage : Option String) :
    (resetToDefaults s storage).1.currencyCode = s.currencyCode ∧
    (resetToDefaults s storage).1.period = s.period ∧
    (resetToDefaults s storage).1.activeTab = s.activeTab ∧
    (resetToDefaults s storage).1.activeMonth = s.activeMonth ∧
    (resetToDefaults s storage).1.locale = s.locale ∧
    (resetToDefaults s storage).1.showIncomePanel = s.showIncomePanel ∧
    (resetToDefaults s storage).1.showFixedExpensesPanel =
      s.showFixedExpensesPanel ∧
    (resetToDefaults s storage).1.incomes = buildDefaultIncomes (t s.locale) ∧
    (resetToDefaults s storage).1.fixedExpenses =
      buildDefaultFixedExpenses (t s.locale) ∧
    (resetToDefaults s storage).1.monthlyBonuses = [] ∧
    (resetToDefaults s storage).1.variableExpensesByMonth = [] ∧
    (resetToDefaults s storage).2 = none :=
  ⟨rfl, rfl, rfl, rfl, rfl, rfl, rfl, rfl, rfl, rfl, rfl, rfl⟩

/-- C7: the full application state is cached to localStorage under the key
"budget-app-state-v1" after every state change (the persist effect writes
the serialized `buildStoredState` document at exactly that key); at
startup an absent key yields no stored state, an unparseable value yields
no stored state, a present nonempty value is handed to the JSON parser,
and initialization from no stored state produces exactly the built-in
defaults. -/
theorem local_storage_cache_spec (parse : String → Option StoredState)
    (serialize : StoredState → String) (freshId raw : String)
    (store : String → Option String) (s : AppState) :
    persistEffect serialize s store "budget-app-state-v1" =
      some (serialize (buildStoredState s)) ∧
    loadStoredState none parse = none ∧
    (parse raw = none → loadStoredState (some raw) parse = none) ∧
    (raw ≠ "" → loadStoredState (some raw) parse = parse raw) ∧
    initAppState none freshId =
      { incomes := buildDefaultIncomes (t AppLocale.en)
        fixedExpenses := buildDefaultFixedExpenses (t AppLocale.en)
        monthlyBonuses := []
        variableExpensesByMonth := []
        currencyCode := "USD"
        period := Period.monthly
        activeTab := "Dashboard"
        activeMonth := "Jan"
        showIncomePanel := false
        showFixedExpensesPanel := false
        locale := AppLocale.en } := by
  refine ⟨?_, rfl, ?_, ?_, rfl⟩
  · simp [persistEffect, storageKey]
  · intro h
    by_cases hr : raw = "" <;> simp [loadStoredState, hr, h]
  · intro h
    simp [loadStoredState, h]

/-- Witness for C7 at a concrete input: with a parser that rejects the
cached text "x", loading falls back to no stored state, and a present
nonempty raw value is passed to the parser. -/
theorem local_storage_cache_spec_witness :
    ((fun _ => (none : Option StoredState)) "x" = (none : Option StoredState) ∧
      loadStoredState (some "x") (fun _ => none) = none) ∧
    (("x" : String) ≠ "" ∧
      loadStoredState (some "x") (fun _ => none) =
        (fun _ => (none : Option StoredState)) "x") := by
  have h := local_storage_cache_spec (fun _ => none) (fun _ => "") "w" "x"
    (fun _ => none) witnessStateA
  exact ⟨⟨rfl, h.2.2.1 rfl⟩, ⟨by decide, h.2.2.2.1 (by decide)⟩⟩

lemma incomeTotal_set_period (s : AppState) (p : Period) :
    incomeTotalBaseUsd { s with period := p } = incomeTotalBaseUsd s := rfl

lemma fixedTotal_set_period (s : AppState) (p : Period) :
    fixedExpensesTotalBaseUsd { s with period := p } =
      fixedExpensesTotalBaseUsd s := rfl

lemma bonusSum_set_period (s : AppState) (p : Period) :
    bonusSumBaseUsd { s with period := p } = bonusSumBaseUsd s := rfl

lemma variableSum_set_period (s : AppState) (p : Period) :
    variableExpensesSumBaseUsd { s with period := p } =
      variableExpensesSumBaseUsd s := rfl

lemma variableTotal_set_period (s : AppState) (p : Period) :
    variableExpensesTotalBaseUsd { s with period := p } =
      variableExpensesTotalBaseUsd s := rfl

/-- C8: in the Dashboard yearly view, income, expenses and remaining count
bonuses and all-month variable expenses once per year while incomes and
fixed expenses are multiplied by 12, so remaining equals
(incomeTotal * 12 + bonusSum - fixedTotal * 12 - variableSum) * rate; in
the weekly and monthly views the single active month's figures are scaled
by rate * periodFactor instead. -/
theorem dashboard_yearly_spec (s : AppState) :
    dashboardIncomeValue { s with period := Period.yearly } =
      (incomeTotalBaseUsd s * 12 + bonusSumBaseUsd s) *
        (selectedCurrency s.currencyCode).rate ∧
    dashboardExpensesValue { s with period := Period.yearly } =
      (fixedExpensesTotalBaseUsd s * 12 + variableExpensesSumBaseUsd s) *
        (selectedCurrency s.currencyCode).rate ∧
    dashboardRemainingValue { s with period := Period.yearly } =
      (incomeTotalBaseUsd s * 12 + bonusSumBaseUsd s -
          fixedExpensesTotalBaseUsd s * 12 - variableExpensesSumBaseUsd s) *
        (selectedCurrency s.currencyCode).rate ∧
    dashboardIncomeValue { s with period := Period.monthly } =
      incomeTotalBaseUsd s * (selectedCurrency s.currencyCode).rate *
        periodFactor Period.monthly ∧
    dashboardIncomeValue { s with period := Period.weekly } =
      incomeTotalBaseUsd s * (selectedCurrency s.currencyCode).rate *
        periodFactor Period.weekly ∧
    dashboardExpensesValue { s with period := Period.monthly } =
      (fixedExpensesTotalBaseUsd s + variableExpensesTotalBaseUsd s) *
        (selectedCurrency s.currencyCode).rate * periodFactor Period.monthly ∧
    dashboardExpensesValue { s with period := Period.weekly } =
      (fixedExpensesTotalBaseUsd s + variableExpensesTotalBaseUsd s) *
        (selectedCurrency s.currencyCode).rate * periodFactor Period.weekly ∧
    dashboardRemainingValue { s with period := Period.monthly } =
      (incomeTotalBaseUsd s - fixedExpensesTotalBaseUsd s -
          variableExpensesTotalBaseUsd s) *
        (selectedCurrency s.currencyCode).rate * periodFactor Period.monthly ∧
    dashboardRemainingValue { s with period := Period.weekly } =
      (incomeTotalBaseUsd s - fixedExpensesTotalBaseUsd s -
          variableExpensesTotalBaseUsd s) *
        (selectedCurrency s.currencyCode).rate * periodFactor Period.weekly := by
  refine ⟨?_, ?_, ?_, ?_, ?_, ?_, ?_, ?_, ?_⟩
  all_goals
    simp only [dashboardIncomeValue, dashboardExpensesValue,
      dashboardRemainingValue, toDisplayAmount, if_pos, if_neg,
      reduceCtorEq, if_false, if_true, incomeTotal_set_period,
      fixedTotal_set_period, bonusSum_set_period, variableSum_set_period,
      variableTotal_set_period]
  all_goals ring

lemma splitDot_ne_nil (l : List Char) : splitDot l ≠ [] := by
  induction l with
  | nil => simp [splitDot]
  | cons c rest ih =>
    by_cases hc : c = '.'
    · simp [splitDot, hc]
    · cases h : splitDot rest with
      | nil => exact absurd h ih
      | cons p ps => simp [splitDot, hc, h]

lemma mem_splitDot_subset (l : List Char) :
    ∀ p ∈ splitDot l, ∀ c ∈ p, c ∈ l := by
  induction l with
  | nil =>
    intro p hp c hc
    simp only [splitDot, List.mem_singleton] at hp
    subst hp
    simp at hc
  | cons a rest ih =>
    intro p hp c hc
    by_cases ha : a = '.'
    · simp only [splitDot, ha, if_pos, List.mem_cons] at hp
      rcases hp with hp | hp
      · subst hp; simp at hc
      · exact List.mem_cons_of_mem _ (ih p hp c hc)
    · cases h : splitDot rest with
      | nil => exact absurd h (splitDot_ne_nil rest)
      | cons q qs =>
        simp only [splitDot, ha, if_neg, h, List.mem_cons, if_false] at hp
        rcases hp with hp | hp
        · subst hp
          rcases List.mem_cons.mp hc with rfl | hcq
          · exact List.mem_cons_self _ _
          · exact List.mem_cons_of_mem _ (ih q (by simp [h]) c hcq)
        · exact List.mem_cons_of_mem _ (ih p (by simp [h, hp]) c hc)

lemma mem_splitDot_no_dot (l : List Char) :
    ∀ p ∈ splitDot l, '.' ∉ p := by
  induction l with
  | nil =>
    intro p hp
    simp only [splitDot, List.mem_singleton] at hp
    subst hp
    simp
  | cons a rest ih =>
    intro p hp
    by_cases ha : a = '.'
    · simp only [splitDot, ha, if_pos, List.mem_cons] at hp
      rcases hp with hp | hp
      · subst hp; simp
      · exact ih p hp
    · cases h : splitDot rest with
      | nil => exact absurd h (splitDot_ne_nil rest)
      | cons q qs =>
        simp only [splitDot, ha, if_neg, h, List.mem_cons, if_false] at hp
        rcases hp with hp | hp
        · subst hp
          intro hmem
          rcases List.mem_cons.mp hmem with h1 | h2
          · exact ha h1.symm
          · exact ih q (by simp [h]) h2
        · exact ih p (by simp [h, hp])

lemma length_splitDot (l : List Char) :
    (splitDot l).length = l.count '.' + 1 := by
  induction l with
  | nil => simp [splitDot]
  | cons a rest ih =>
    by_cases ha : a = '.'
    · subst ha
      simp [splitDot, ih, List.count_cons]
    · cases h : splitDot rest with
      | nil => exact absurd h (splitDot_ne_nil rest)
      | cons q qs =>
        rw [h] at ih
        simp only [splitDot, ha, if_neg, h, if_false, List.length_cons] at ih ⊢
        simp [List.count_cons, ha]
        omega

lemma joinDot_splitDot (l : List Char) : joinDot (splitDot l) = l := by
  induction l with
  | nil => simp [splitDot, joinDot]
  | cons a rest ih =>
    by_cases ha : a = '.'
    · subst ha
      cases h : splitDot rest with
      | nil => exact absurd h (splitDot_ne_nil rest)
      | cons q qs =>
        rw [h] at ih
        simp only [splitDot, if_pos, h, joinDot, List.nil_append]
        rw [ih]
    · cases h : splitDot rest with
      | nil => exact absurd h (splitDot_ne_nil rest)
      | cons q qs =>
        rw [h] at ih
        cases qs with
        | nil =>
          simp only [splitDot, ha, if_neg, h, if_false, joinDot] at ih ⊢
          rw [ih]
        | cons r rs =>
          simp only [splitDot, ha, if_neg, h, if_false, joinDot,
            List.cons_append] at ih ⊢
          rw [← ih]

lemma sanitizeChars_allowed (l : List Char) :
    ∀ c ∈ sanitizeChars l, isAmountChar c = true := by
  intro c hc
  unfold sanitizeChars at hc
  split at hc
  · exact (List.mem_filter.mp hc).2
  · exact (List.mem_filter.mp hc).2
  · rename_i p rest hne heq
    rcases List.mem_append.mp hc with hcp | hc2
    · have hmem : c ∈ l.filter isAmountChar :=
        mem_splitDot_subset _ p (by rw [heq]; exact List.mem_cons_self _ _) c hcp
      exact (List.mem_filter.mp hmem).2
    · rcases List.mem_cons.mp hc2 with rfl | hcf
      · decide
      · obtain ⟨r, hr, hcr⟩ := List.mem_flatten.mp hcf
        have hmem : c ∈ l.filter isAmountChar :=
          mem_splitDot_subset _ r
            (by rw [heq]; exact List.mem_cons_of_mem _ hr) c hcr
        exact (List.mem_filter.mp hmem).2

lemma sanitizeChars_count (l : List Char) :
    (sanitizeChars l).count '.' ≤ 1 := by
  unfold sanitizeChars
  split
  · rename_i heq
    exact absurd heq (splitDot_ne_nil _)
  · rename_i x heq
    have hlen := length_splitDot (l.filter isAmountChar)
    rw [heq] at hlen
    simp only [List.length_singleton] at hlen
    omega
  · rename_i p rest hne heq
    have hp : '.' ∉ p :=
      mem_splitDot_no_dot _ p (by rw [heq]; exact List.mem_cons_self _ _)
    have hflat : '.' ∉ rest.flatten := by
      intro hmem
      obtain ⟨r, hr, hcr⟩ := List.mem_flatten.mp hmem
      exact mem_splitDot_no_dot _ r
        (by rw [heq]; exact List.mem_cons_of_mem _ hr) hcr
    rw [List.count_append, List.count_cons]
    rw [List.count_eq_zero.mpr hp, List.count_eq_zero.mpr hflat]
    simp

lemma sanitizeChars_of_clean (l : List Char)
    (hall : ∀ c ∈ l, isAmountChar c = true)
    (hcount : l.count '.' ≤ 1) : sanitizeChars l = l := by
  have hfilter : l.filter isAmountChar = l := List.filter_eq_self.mpr hall
  unfold sanitizeChars
  rw [hfilter]
  split
  · rename_i heq
    exact absurd heq (splitDot_ne_nil _)
  · rfl
  · rename_i p rest hne heq
    have hlen := length_splitDot l
    rw [heq] at hlen
    simp only [List.length_cons] at hlen
    have hr1 : rest.length = 1 := by
      rcases Nat.eq_zero_or_pos rest.length with h0 | hpos
      · exact absurd (List.length_eq_zero.mp h0) (fun hh => hne hh)
      · omega
    obtain ⟨q, hq⟩ := List.length_eq_one.mp hr1
    subst hq
    have hj := joinDot_splitDot l
    rw [heq] at hj
    simp only [joinDot, List.flatten_cons, List.flatten_nil,
      List.append_nil] at hj ⊢
    exact hj

/-- C10: for every input string, `sanitizeAmountInput` returns a string
containing only decimal digits and at most one dot, and the function is
idempotent. -/
theorem sanitizeAmountInput_spec (s : String) :
    (sanitizeAmountInput s).data.all isAmountChar = true ∧
    (sanitizeAmountInput s).data.count '.' ≤ 1 ∧
    sanitizeAmountInput (sanitizeAmountInput s) = sanitizeAmountInput s := by
  have hdata : (sanitizeAmountInput s).data = sanitizeChars s.data := rfl
  refine ⟨?_, ?_, ?_⟩
  · rw [hdata]
    exact List.all_eq_true.mpr (fun c hc => sanitizeChars_allowed s.data c hc)
  · rw [hdata]
    exact sanitizeChars_count s.data
  · show String.mk (sanitizeChars (sanitizeAmountInput s).data) =
      sanitizeAmountInput s
    rw [hdata]
    exact congrArg String.mk
      (sanitizeChars_of_clean _
        (fun c hc => sanitizeChars_allowed s.data c hc)
        (sanitizeChars_count s.data))
